import Mathlib

/-!
Verification of the rag-with-langchain repository's core logic against its
specification.  Strings are modelled as `List Char`; the file-system records of
the session-history subsystem are modelled as an association list from file
paths to stored turn sequences.  Each definition is a shallow embedding of the
corresponding Python function named in its doc comment.
-/

set_option linter.unusedVariables false

abbrev Str := List Char

/-! ### Session history store (src/fastapi/src/chat/history.py) -/

/-- Characters accepted by the character class `[a-zA-Z0-9-_]` of the session-id
validator in `src/fastapi/src/chat/history.py`. -/
def validChar (c : Char) : Bool :=
  ('a' ≤ c && c ≤ 'z') || ('A' ≤ c && c ≤ 'Z') || ('0' ≤ c && c ≤ '9') || c = '-' || c = '_'

/-- Helper for the validator: after the first character, the remainder must be
valid characters, except that a single final newline is also accepted, because
in Python `re.match` the anchor `$` of `^[a-zA-Z0-9-_]+$` also matches just
before a trailing newline. -/
def matchTail : Str → Bool
  | [] => true
  | [c] => validChar c || c = '\n'
  | c :: rest => validChar c && matchTail rest

/-- Embeds `_is_valid_identifier` of src/fastapi/src/chat/history.py: Python's
`bool(re.match(r"^[a-zA-Z0-9-_]+$", value))`.  It accepts one or more characters
from `[a-zA-Z0-9-_]`, optionally followed by one trailing newline (a Python
`re` quirk of `$`); everything else is rejected. -/
def is_valid_identifier : Str → Bool
  | [] => false
  | c :: rest => validChar c && matchTail rest

theorem matchTail_mem : ∀ s : Str, matchTail s = true →
    ∀ c ∈ s, validChar c = true ∨ c = '\n'
  | [], _ => by simp
  | [a], h => by
    intro c hc
    rcases List.mem_singleton.mp hc with rfl
    simp only [matchTail, Bool.or_eq_true, decide_eq_true_eq] at h
    exact h
  | a :: b :: t, h => by
    intro c hc
    simp only [matchTail, Bool.and_eq_true] at h
    rcases List.mem_cons.mp hc with rfl | hc'
    · exact Or.inl h.1
    · exact matchTail_mem (b :: t) h.2 c hc'

theorem valid_mem {s : Str} (h : is_valid_identifier s = true) :
    ∀ c ∈ s, validChar c = true ∨ c = '\n' := by
  match s, h with
  | a :: t, h =>
    have h' := Bool.and_eq_true_iff.mp h
    intro c hc
    rcases List.mem_cons.mp hc with rfl | hc'
    · exact Or.inl h'.1
    · exact matchTail_mem t h'.2 c hc'

theorem valid_head {s : Str} (h : is_valid_identifier s = true) :
    ∃ a t, s = a :: t ∧ validChar a = true := by
  match s, h with
  | a :: t, h => exact ⟨a, t, rfl, (Bool.and_eq_true_iff.mp h).1⟩

theorem valid_no_slash {s : Str} (h : is_valid_identifier s = true) : '/' ∉ s := by
  intro hmem
  rcases valid_mem h '/' hmem with hc | hc
  · exact absurd hc (by decide)
  · exact absurd hc (by decide)

/-- One chat turn as stored by the history subsystem: a role and a content
string (the subsystem treats messages opaquely, so this record is enough). -/
structure Turn where
  role : Str
  content : Str
  deriving DecidableEq

/-- The durable state of the history subsystem: an association list from file
paths to the turn sequence stored in that file.  A path absent from the list
means the file does not exist. -/
abbrev Store := List (Str × List Turn)

/-- Look up the record stored at a path, `none` when the file does not exist. -/
def lookupStore : Store → Str → Option (List Turn)
  | [], _ => none
  | (p, v) :: rest, q => if p = q then some v else lookupStore rest q

/-- Write a record at a path, replacing the previous record if the file exists
and creating the file otherwise. -/
def setStore : Store → Str → List Turn → Store
  | [], q, v => [(q, v)]
  | (p, w) :: rest, q, v => if p = q then (q, v) :: rest else (p, w) :: setStore rest q v

/-- Embeds Python's `os.path.join a b` for the POSIX case used here: if `b` is
absolute it wins; otherwise `a` and `b` are joined with exactly one `/`. -/
def pathJoin (a b : Str) : Str :=
  if b.head? = some '/' then b
  else if a = [] then b
  else if a.getLast? = some '/' then a ++ b
  else a ++ '/' :: b

/-- Embeds the path computation of `get_chat_history`:
`os.path.join(base_dir, f"{session_id}.json")`. -/
def session_file_path (baseDir sessionId : Str) : Str :=
  pathJoin baseDir (sessionId ++ ".json".data)

/-- Embeds the Python slice `xs[-k:]`.  For `k = 0` the slice is `xs[0:]`, the
whole list (`-0 == 0`); for `k > 0` it is the last `min k (length xs)`
elements. -/
def pySliceLast {α : Type} (xs : List α) (k : Nat) : List α :=
  if k = 0 then xs else xs.drop (xs.length - k)

/-- Embeds `get_chat_history` of src/fastapi/src/chat/history.py (the closure
produced by `create_session_factory base_dir max_history_length`).  Invalid
session ids raise HTTP 400 before any storage access.  Otherwise a
`FileChatMessageHistory` is created at `base_dir/<session_id>.json`, which
creates an empty record when the file does not exist; if the stored message
count exceeds `max_history_length`, the history is cleared and the last
`max_history_length` messages (Python slice `messages[-max_history_length:]`)
are re-added.  The returned value pairs the outcome (error status or the
final message list held by the returned history object) with the
post-call store. -/
def get_chat_history (baseDir : Str) (maxHistoryLength : Nat) (store : Store)
    (sessionId : Str) : Except Nat (List Turn) × Store :=
  if is_valid_identifier sessionId = false then
    (.error 400, store)
  else
    let filePath := session_file_path baseDir sessionId
    let store1 :=
      match lookupStore store filePath with
      | some _ => store
      | none => setStore store filePath []
    let messages := (lookupStore store1 filePath).getD []
    if maxHistoryLength < messages.length then
      let kept := pySliceLast messages maxHistoryLength
      (.ok kept, setStore store1 filePath kept)
    else
      (.ok messages, store1)

/-- Modelled from the spec: turns are appended to the session record in arrival
order with no bound enforcement (spec section 4.2, "new turns are appended in
arrival order"; the appending code is `FileChatMessageHistory.add_message` of
the langchain library, which is not part of this repository's sources). -/
def add_message (store : Store) (filePath : Str) (m : Turn) : Store :=
  setStore store filePath ((lookupStore store filePath).getD [] ++ [m])

/-- Sample turn used by concrete witnesses: role "human", one-digit content. -/
def exTurn (n : Nat) : Turn :=
  ⟨"human".data, [Char.ofNat (48 + n)]⟩

theorem lookupStore_setStore_self (s : Store) (p : Str) (v : List Turn) :
    lookupStore (setStore s p v) p = some v := by
  induction s with
  | nil => simp [setStore, lookupStore]
  | cons hd tl ih =>
    obtain ⟨q, w⟩ := hd
    by_cases hq : q = p <;> simp [setStore, lookupStore, hq, ih]

/-- C1: session ids rejected by the validator make `get_chat_history` raise a
client error (HTTP 400) with the store untouched — in particular no session
file is created — while accepted ids never produce an error; `"abc-123_1"` is
accepted and `"abc 123"`, `"abc@123"` are rejected. -/
theorem C1_session_id_validation (baseDir : Str) (maxLen : Nat) (store : Store)
    (sid : Str) :
    (is_valid_identifier sid = false →
      get_chat_history baseDir maxLen store sid = (.error 400, store)) ∧
    (is_valid_identifier sid = true →
      (get_chat_history baseDir maxLen store sid).1.isOk = true) ∧
    is_valid_identifier "abc-123_1".data = true ∧
    is_valid_identifier "abc 123".data = false ∧
    is_valid_identifier "abc@123".data = false := by
  refine ⟨fun h => ?_, fun h => ?_, by decide, by decide, by decide⟩
  · simp [get_chat_history, h]
  · unfold get_chat_history
    rw [h]
    simp only [Bool.true_eq_false, if_false]
    split <;> rfl

theorem C1_session_id_validation_witness :
    get_chat_history "chat_histories".data 6 [] "abc@123".data = (.error 400, []) ∧
    (get_chat_history "chat_histories".data 6 [] "abc-123_1".data).1.isOk = true := by
  refine ⟨(C1_session_id_validation "chat_histories".data 6 [] "abc@123".data).1 (by decide),
    (C1_session_id_validation "chat_histories".data 6 [] "abc-123_1".data).2.1 (by decide)⟩

/-- C4: for every accepted session id, the storage path is the direct join of
the base directory, a separator, and the id followed by ".json" (no hashing),
and because accepted ids contain no path separator and no dot, that final path
component is a genuine child name (nonempty, not ".", not "..", without "/"),
so the path never escapes the base directory. -/
theorem C4_path_containment (baseDir sid : Str)
    (hv : is_valid_identifier sid = true)
    (hb : baseDir ≠ [])
    (hs : baseDir.getLast? ≠ some '/') :
    session_file_path baseDir sid = baseDir ++ '/' :: (sid ++ ".json".data) ∧
    '/' ∉ sid ∧
    '/' ∉ sid ++ ".json".data ∧
    sid ++ ".json".data ≠ [] ∧
    sid ++ ".json".data ≠ ".".data ∧
    sid ++ ".json".data ≠ "..".data := by
  obtain ⟨a, t, rfl, ha⟩ := valid_head hv
  have hslash : '/' ∉ a :: t := valid_no_slash hv
  have hane : a ≠ '/' := by
    intro h
    exact hslash (h ▸ List.mem_cons_self a t)
  refine ⟨?_, hslash, ?_, by simp, ?_, ?_⟩
  · simp only [session_file_path, pathJoin, List.cons_append, List.head?_cons]
    rw [if_neg (by simpa using hane), if_neg hb, if_neg hs]
  · intro hmem
    rcases List.mem_append.mp hmem with hm | hm
    · exact hslash hm
    · revert hm
      decide
  · intro heq
    have := congrArg List.length heq
    simp [String.data] at this
  · intro heq
    have := congrArg List.length heq
    simp [String.data] at this

theorem C4_path_containment_witness :
    session_file_path "chat_histories".data "abc-123_1".data =
      "chat_histories".data ++ '/' :: ("abc-123_1".data ++ ".json".data) ∧
    '/' ∉ "abc-123_1".data ∧
    '/' ∉ "abc-123_1".data ++ ".json".data ∧
    "abc-123_1".data ++ ".json".data ≠ [] ∧
    "abc-123_1".data ++ ".json".data ≠ ".".data ∧
    "abc-123_1".data ++ ".json".data ≠ "..".data :=
  C4_path_containment "chat_histories".data "abc-123_1".data
    (by decide) (by decide) (by decide)

/-- C10: reading a valid session whose stored record holds at most
`max_history_length` turns returns exactly those turns and performs no write:
the store after `get_chat_history` is the store before it. -/
theorem C10_read_is_pure (baseDir : Str) (maxLen : Nat) (store : Store)
    (sid : Str) (msgs : List Turn)
    (hv : is_valid_identifier sid = true)
    (hrec : lookupStore store (session_file_path baseDir sid) = some msgs)
    (hlen : msgs.length ≤ maxLen) :
    get_chat_history baseDir maxLen store sid = (.ok msgs, store) := by
  simp only [get_chat_history, hv, Bool.true_eq_false, if_false, hrec, Option.getD_some]
  rw [if_neg (Nat.not_lt.mpr hlen)]

theorem C10_read_is_pure_witness :
    get_chat_history "chat_histories".data 6
        [(session_file_path "chat_histories".data "sess1".data, [exTurn 0, exTurn 1])]
        "sess1".data
      = (.ok [exTurn 0, exTurn 1],
         [(session_file_path "chat_histories".data "sess1".data, [exTurn 0, exTurn 1])]) :=
  C10_read_is_pure "chat_histories".data 6
    [(session_file_path "chat_histories".data "sess1".data, [exTurn 0, exTurn 1])]
    "sess1".data [exTurn 0, exTurn 1] (by decide) (by decide) (by decide)

/-- C2 counterexample: the claim fails at `max_history_length = 0`.  A session
storing one turn exceeds the maximum, yet the read leaves the record at one
turn instead of rewriting it to the most recent zero turns, because the Python
slice `messages[-0:]` is the whole list. -/
theorem C2_counterexample :
    0 < ([exTurn 0] : List Turn).length ∧
    get_chat_history "chat_histories".data 0
        [(session_file_path "chat_histories".data "s".data, [exTurn 0])] "s".data
      = (.ok [exTurn 0],
         [(session_file_path "chat_histories".data "s".data, [exTurn 0])]) ∧
    ([exTurn 0] : List Turn) ≠ [] := by
  exact ⟨by decide, rfl, by decide⟩

/-- C2 (amended): provided the configured maximum is at least 1, a read of a
valid session holding more than `max_history_length` turns returns the most
recent `max_history_length` turns in their original order and rewrites the
stored record to exactly that suffix. -/
theorem C2_truncation_on_read (baseDir : Str) (maxLen : Nat) (store : Store)
    (sid : Str) (msgs : List Turn)
    (hpos : 1 ≤ maxLen)
    (hv : is_valid_identifier sid = true)
    (hrec : lookupStore store (session_file_path baseDir sid) = some msgs)
    (hlen : maxLen < msgs.length) :
    get_chat_history baseDir maxLen store sid =
      (.ok (msgs.drop (msgs.length - maxLen)),
        setStore store (session_file_path baseDir sid)
          (msgs.drop (msgs.length - maxLen))) ∧
    (msgs.drop (msgs.length - maxLen)).length = maxLen ∧
    msgs.drop (msgs.length - maxLen) <:+ msgs := by
  have hk : maxLen ≠ 0 := by omega
  refine ⟨?_, ?_, List.drop_suffix _ _⟩
  · simp only [get_chat_history, hv, Bool.true_eq_false, if_false, hrec, Option.getD_some,
      if_pos hlen, pySliceLast, if_neg hk]
  · rw [List.length_drop]
    omega

theorem C2_truncation_on_read_witness :
    get_chat_history "chat_histories".data 6
        [(session_file_path "chat_histories".data "s".data, (List.range 10).map exTurn)]
        "s".data
      = (.ok (((List.range 10).map exTurn).drop (((List.range 10).map exTurn).length - 6)),
        setStore
          [(session_file_path "chat_histories".data "s".data, (List.range 10).map exTurn)]
          (session_file_path "chat_histories".data "s".data)
          (((List.range 10).map exTurn).drop (((List.range 10).map exTurn).length - 6))) ∧
    (((List.range 10).map exTurn).drop (((List.range 10).map exTurn).length - 6)).length = 6 ∧
    ((List.range 10).map exTurn).drop (((List.range 10).map exTurn).length - 6)
      <:+ (List.range 10).map exTurn :=
  C2_truncation_on_read "chat_histories".data 6
    [(session_file_path "chat_histories".data "s".data, (List.range 10).map exTurn)]
    "s".data ((List.range 10).map exTurn) (by decide) (by decide) (by decide) (by decide)

/-- C3 counterexample: the invariant does not hold after every operation.  An
append (`add_message`) to a session already holding the configured maximum of
1 turn leaves 2 stored turns, and a read with configured maximum 0 of a
session holding 1 turn leaves that turn in place. -/
theorem C3_counterexample :
    ((lookupStore
        (add_message [(session_file_path "chat_histories".data "s".data, [exTurn 0])]
          (session_file_path "chat_histories".data "s".data) (exTurn 1))
        (session_file_path "chat_histories".data "s".data)).getD []).length = 2 ∧
    ¬ (2 ≤ 1) ∧
    (lookupStore
        (get_chat_history "chat_histories".data 0
          [(session_file_path "chat_histories".data "s".data, [exTurn 0])] "s".data).2
        (session_file_path "chat_histories".data "s".data)).getD [] = [exTurn 0] ∧
    ¬ (([exTurn 0] : List Turn).length ≤ 0) := by
  exact ⟨rfl, by decide, rfl, by decide⟩

/-- C3 (amended): after every `get_chat_history` read with a positive
configured maximum, the session's stored turn sequence is a suffix of the
previously stored sequence — order preserved, oldest turns evicted first — its
length is at most the maximum, and it is what the call returns.  Appends are
not bounded until the next read. -/
theorem C3_read_invariant (baseDir : Str) (maxLen : Nat) (store : Store) (sid : Str)
    (hpos : 1 ≤ maxLen) (hv : is_valid_identifier sid = true) :
    ∃ r, lookupStore (get_chat_history baseDir maxLen store sid).2
          (session_file_path baseDir sid) = some r ∧
      (get_chat_history baseDir maxLen store sid).1 = .ok r ∧
      r.length ≤ maxLen ∧
      r <:+ (lookupStore store (session_file_path baseDir sid)).getD [] := by
  cases hrec : lookupStore store (session_file_path baseDir sid) with
  | none =>
    have hlk := lookupStore_setStore_self store (session_file_path baseDir sid) []
    refine ⟨[], ?_, ?_, by simp, List.nil_suffix⟩
    · simp only [get_chat_history, hv, Bool.true_eq_false, if_false, hrec, hlk,
        Option.getD_some, List.length_nil, Nat.not_lt_zero, if_false]
    · simp only [get_chat_history, hv, Bool.true_eq_false, if_false, hrec, hlk,
        Option.getD_some, List.length_nil, Nat.not_lt_zero, if_false]
  | some msgs =>
    by_cases hlen : maxLen < msgs.length
    · have hk : maxLen ≠ 0 := by omega
      refine ⟨msgs.drop (msgs.length - maxLen), ?_, ?_, ?_, ?_⟩
      · simp only [get_chat_history, hv, Bool.true_eq_false, if_false, hrec,
          Option.getD_some, if_pos hlen, pySliceLast, if_neg hk]
        exact lookupStore_setStore_self _ _ _
      · simp only [get_chat_history, hv, Bool.true_eq_false, if_false, hrec,
          Option.getD_some, if_pos hlen, pySliceLast, if_neg hk]
      · rw [List.length_drop]
        omega
      · simp only [Option.getD_some]
        exact List.drop_suffix _ _
    · refine ⟨msgs, ?_, ?_, Nat.not_lt.mp hlen,
        by simp only [Option.getD_some]; exact List.suffix_refl msgs⟩
      · simp only [get_chat_history, hv, Bool.true_eq_false, if_false, hrec,
          Option.getD_some, if_neg hlen]
      · simp only [get_chat_history, hv, Bool.true_eq_false, if_false, hrec,
          Option.getD_some, if_neg hlen]

theorem C3_read_invariant_witness :
    ∃ r, lookupStore (get_chat_history "chat_histories".data 1 [] "s".data).2
          (session_file_path "chat_histories".data "s".data) = some r ∧
      (get_chat_history "chat_histories".data 1 [] "s".data).1 = .ok r ∧
      r.length ≤ 1 ∧
      r <:+ (lookupStore [] (session_file_path "chat_histories".data "s".data)).getD [] :=
  C3_read_invariant "chat_histories".data 1 [] "s".data (by decide) (by decide)

/-! ### Answer extractors (src/fastapi/src/rag/rag.py,
src/fastapi_interface/src/rag/utils.py,
src/fastapi_interface/src/chat/output_parser.py) -/

/-- Whitespace as Python's `\s` and `str.strip` treat it (the ASCII whitespace
characters). -/
def pySpace (c : Char) : Bool :=
  c = ' ' || c = '\t' || c = '\n' || c = '\r' || c = '\x0b' || c = '\x0c'

/-- Embeds Python's `str.strip()`: remove leading and trailing whitespace. -/
def pyStrip (s : Str) : Str :=
  ((s.dropWhile pySpace).reverse.dropWhile pySpace).reverse

/-- Tests whether the second list starts with the first. -/
def startsWithSeq : Str → Str → Bool
  | [], _ => true
  | _ :: _, [] => false
  | p :: ps, c :: cs => p = c && startsWithSeq ps cs

/-- Embeds the search for a literal marker that `re.search` performs for the
patterns used in this repository (a literal followed by a capture that always
succeeds): the result is the text before the first occurrence of the marker
and the text after it, or `none` when the marker does not occur.  Callers in
this repository always pass a nonempty marker. -/
def findSplit (pat : Str) : Str → Option (Str × Str)
  | [] => none
  | c :: rest =>
    if startsWithSeq pat (c :: rest) then some ([], (c :: rest).drop pat.length)
    else
      match findSplit pat rest with
      | some (pre, post) => some (c :: pre, post)
      | none => none

theorem startsWithSeq_iff : ∀ p s : Str, startsWithSeq p s = true ↔ ∃ t, s = p ++ t
  | [], s => by simp [startsWithSeq]
  | p :: ps, [] => by
    simp only [startsWithSeq, Bool.false_eq_true, false_iff]
    rintro ⟨t, ht⟩
    exact absurd ht (by simp)
  | p :: ps, c :: cs => by
    simp only [startsWithSeq, Bool.and_eq_true, decide_eq_true_eq]
    constructor
    · rintro ⟨rfl, h⟩
      obtain ⟨t, rfl⟩ := (startsWithSeq_iff ps cs).mp h
      exact ⟨t, rfl⟩
    · rintro ⟨t, ht⟩
      rw [List.cons_append] at ht
      injection ht with h1 h2
      exact ⟨h1.symm, (startsWithSeq_iff ps cs).mpr ⟨t, h2⟩⟩

theorem findSplit_some_decomp : ∀ (pat text pre post : Str),
    findSplit pat text = some (pre, post) → text = pre ++ pat ++ post
  | pat, [], pre, post => by simp [findSplit]
  | pat, c :: rest, pre, post => by
    simp only [findSplit]
    by_cases hs : startsWithSeq pat (c :: rest) = true
    · rw [if_pos hs]
      obtain ⟨t, ht⟩ := (startsWithSeq_iff pat (c :: rest)).mp hs
      intro h
      rw [Option.some.injEq, Prod.mk.injEq] at h
      obtain ⟨h1, h2⟩ := h
      subst h1
      subst h2
      simp only [List.nil_append]
      rw [ht, List.drop_left]
    · rw [if_neg hs]
      cases hrec : findSplit pat rest with
      | none => intro h; cases h
      | some pq =>
        obtain ⟨pre', post'⟩ := pq
        intro h
        rw [Option.some.injEq, Prod.mk.injEq] at h
        obtain ⟨h1, h2⟩ := h
        subst h1
        subst h2
        have := findSplit_some_decomp pat rest pre' post' hrec
        simp [this]

theorem findSplit_eq_none : ∀ (pat text : Str), pat ≠ [] →
    (∀ i, i ≤ text.length → ¬ pat <+: text.drop i) →
    findSplit pat text = none
  | pat, [], hp, h => by simp [findSplit]
  | pat, c :: rest, hp, h => by
    have h0 : ¬ pat <+: (c :: rest) := by simpa using h 0 (by omega)
    have hs : ¬ startsWithSeq pat (c :: rest) = true := by
      intro hs
      obtain ⟨t, ht⟩ := (startsWithSeq_iff _ _).mp hs
      exact h0 ⟨t, ht.symm⟩
    have hrest : findSplit pat rest = none := by
      refine findSplit_eq_none pat rest hp (fun i hi => ?_)
      have := h (i + 1) (by simp only [List.length_cons]; omega)
      simpa [List.drop_succ_cons] using this
    simp only [findSplit]
    rw [if_neg hs, hrest]

theorem findSplit_of_first : ∀ (pat pre post : Str), pat ≠ [] →
    (∀ i, i < pre.length → ¬ pat <+: ((pre ++ pat ++ post).drop i)) →
    findSplit pat (pre ++ pat ++ post) = some (pre, post)
  | pat, [], post, hp, h => by
    obtain ⟨p, ps, rfl⟩ : ∃ p ps, pat = p :: ps := by
      cases pat with
      | nil => exact absurd rfl hp
      | cons p ps => exact ⟨p, ps, rfl⟩
    simp only [List.nil_append, List.cons_append, findSplit, List.append_eq]
    rw [if_pos ((startsWithSeq_iff (p :: ps) (p :: (ps ++ post))).mpr ⟨post, by simp⟩)]
    rw [show p :: (ps ++ post) = (p :: ps) ++ post from rfl, List.drop_left]
  | pat, c :: pre', post, hp, h => by
    have h0 : ¬ pat <+: (c :: (pre' ++ pat ++ post)) := by
      simpa [List.cons_append] using h 0 (by simp)
    have hs : ¬ startsWithSeq pat (c :: (pre' ++ pat ++ post)) = true := by
      intro hs
      obtain ⟨t, ht⟩ := (startsWithSeq_iff _ _).mp hs
      exact h0 ⟨t, ht.symm⟩
    have hrest : findSplit pat (pre' ++ pat ++ post) = some (pre', post) := by
      refine findSplit_of_first pat pre' post hp (fun i hi => ?_)
      have := h (i + 1) (by simp only [List.length_cons]; omega)
      simpa [List.cons_append, List.drop_succ_cons] using this
    simp only [List.cons_append, findSplit, List.append_eq]
    rw [if_neg hs, hrest]

theorem pyStrip_length_le (s : Str) : (pyStrip s).length ≤ s.length := by
  have h1 : (s.dropWhile pySpace).length ≤ s.length :=
    (List.dropWhile_sublist pySpace).length_le
  have h2 : ((s.dropWhile pySpace).reverse.dropWhile pySpace).length ≤
      (s.dropWhile pySpace).reverse.length :=
    (List.dropWhile_sublist pySpace).length_le
  simp only [pyStrip, List.length_reverse] at *
  omega

/-- Helper making the recursion of `recursive_extract` structural: the fuel
bounds the recursion depth. -/
def recursive_extract_fuel (pat : Str) : Nat → Str → Str → Str
  | 0, _, defaultAnswer => defaultAnswer
  | fuel + 1, text, defaultAnswer =>
    match findSplit pat text with
    | some (_, post) => recursive_extract_fuel pat fuel (pyStrip post) (pyStrip post)
    | none => defaultAnswer

/-- Embeds `recursive_extract` of src/fastapi_interface/src/chat/output_parser.py:
search the text for the marker (`re.search(pattern, text, re.DOTALL)` where the
pattern is a literal marker followed by `(.*)`); on a match, strip the captured
text after the marker and recurse on it with it as the new default; with no
match return the current default.  Every match consumes at least the nonempty
marker, so the text shrinks at each step and the fuel `text.length + 1` is
never exhausted (`recursive_extract_fuel_congr`); the fuel only makes the
recursion structural. -/
def recursive_extract (pat text defaultAnswer : Str) : Str :=
  recursive_extract_fuel pat (text.length + 1) text defaultAnswer

theorem recursive_extract_fuel_congr (pat : Str) (hp : pat ≠ []) :
    ∀ fuel₁ fuel₂ text d, text.length < fuel₁ → text.length < fuel₂ →
      recursive_extract_fuel pat fuel₁ text d = recursive_extract_fuel pat fuel₂ text d := by
  intro fuel₁
  induction fuel₁ with
  | zero => intro fuel₂ text d h1 h2; omega
  | succ f ih =>
    intro fuel₂ text d h1 h2
    cases fuel₂ with
    | zero => omega
    | succ g =>
      simp only [recursive_extract_fuel]
      cases hf : findSplit pat text with
      | none => rfl
      | some pq =>
        obtain ⟨pre, post⟩ := pq
        have hd := findSplit_some_decomp pat text pre post hf
        have hlen : post.length < text.length := by
          have := congrArg List.length hd
          simp only [List.length_append] at this
          have hpat : 0 < pat.length := List.length_pos.mpr hp
          omega
        have hstrip := pyStrip_length_le post
        exact ih g (pyStrip post) (pyStrip post) (by omega) (by omega)

theorem recursive_extract_of_none (pat text d : Str) (h : findSplit pat text = none) :
    recursive_extract pat text d = d := by
  simp [recursive_extract, recursive_extract_fuel, h]

/-- The fixed fallback string of the chat extractor. -/
def fallbackAnswer : Str := "Sorry, I am not sure how to help with that.".data

/-- The literal marker of the first chat pattern `r'\nAssistant:(.*)'`. -/
def assistantMarker : Str := "\nAssistant:".data

/-- The literal marker of the second chat pattern `r'\nAI:(.*)'`. -/
def aiMarker : Str := "\nAI:".data

/-- The literal marker of the document-QA pattern `r"Answer:\s*(.*)"`. -/
def answerMarker : Str := "Answer:".data

/-- Embeds `Str_OutputParser._extract_answer` of src/fastapi/src/rag/rag.py:
`re.search(r"Answer:\s*(.*)", text, re.DOTALL)`.  On a match the capture is
everything after the first `Answer:` with the leading whitespace consumed by
`\s*`, and `.strip()` trims it — together that is `pyStrip` of the text after
the marker; with no match the raw text is returned unchanged. -/
def extract_answer_rag (textResponse : Str) : Str :=
  match findSplit answerMarker textResponse with
  | some (_, post) => pyStrip post
  | none => textResponse

/-- Embeds `extract_answer` of src/fastapi_interface/src/rag/utils.py: the same
pattern without `re.DOTALL`, so after `\s*` greedily takes the whitespace run
the capture `(.*)` stops at the next newline; with no match the fixed string
"Answer not found." is returned. -/
def extract_answer_utils (textResponse : Str) : Str :=
  match findSplit answerMarker textResponse with
  | some (_, post) =>
      pyStrip ((post.dropWhile pySpace).takeWhile (fun c => !(c = '\n')))
  | none => "Answer not found.".data

/-- Embeds `Str_OutputParser._extract_answer` of
src/fastapi_interface/src/chat/output_parser.py: a loop over the two patterns
`r'\nAssistant:(.*)'` then `r'\nAI:(.*)'` with mutable `input_text` and
`default_answer`.  After the first pass, if its output differs from the
fallback default, both the input and the default of the second pass become
that output; otherwise the second pass runs on the original text with the
fallback default.  The loop's final `output_text` — the second pass's result —
is returned. -/
def extract_answer_chat (textResponse : Str) : Str :=
  let out1 := recursive_extract assistantMarker textResponse fallbackAnswer
  if out1 = fallbackAnswer then recursive_extract aiMarker textResponse fallbackAnswer
  else recursive_extract aiMarker out1 out1

/-- C5 counterexample: the claim fails on the fastapi_interface document-QA
extractor (`extract_answer` of src/fastapi_interface/src/rag/utils.py, one of
the two cited Variant A implementations): on input "Paris", where the marker
is absent, it returns the fixed string "Answer not found." instead of the raw
input unchanged. -/
theorem C5_counterexample :
    findSplit answerMarker "Paris".data = none ∧
    extract_answer_utils "Paris".data = "Answer not found.".data ∧
    extract_answer_utils "Paris".data ≠ "Paris".data := by
  exact ⟨rfl, rfl, by decide⟩

/-- C5 (amended): the rag.py extractor returns the trimmed text following the
first occurrence of the literal marker "Answer:" and any optional whitespace,
and returns the raw input unchanged when the marker is absent; the
fastapi_interface utils extractor instead returns the fixed string
"Answer not found." when the marker is absent. -/
theorem C5_extract_answer_document_qa (text : Str) :
    ((∀ i, i ≤ text.length → ¬ answerMarker <+: text.drop i) →
      extract_answer_rag text = text ∧
      extract_answer_utils text = "Answer not found.".data) ∧
    (∀ pre post, text = pre ++ answerMarker ++ post →
      (∀ i, i < pre.length → ¬ answerMarker <+: text.drop i) →
      extract_answer_rag text = pyStrip post) := by
  constructor
  · intro h
    have hn : findSplit answerMarker text = none :=
      findSplit_eq_none answerMarker text (by decide) h
    exact ⟨by simp [extract_answer_rag, hn], by simp [extract_answer_utils, hn]⟩
  · intro pre post hdec hfirst
    subst hdec
    have hf : findSplit answerMarker (pre ++ answerMarker ++ post) = some (pre, post) :=
      findSplit_of_first answerMarker pre post (by decide) hfirst
    rw [List.append_assoc] at hf
    simp [extract_answer_rag, hf]

theorem C5_extract_answer_document_qa_witness :
    extract_answer_rag "Answer: Paris".data = pyStrip " Paris".data ∧
    extract_answer_rag "Paris".data = "Paris".data ∧
    extract_answer_utils "Paris".data = "Answer not found.".data := by
  refine ⟨(C5_extract_answer_document_qa "Answer: Paris".data).2 [] " Paris".data
      (by decide) (fun i hi => by simp at hi),
    ((C5_extract_answer_document_qa "Paris".data).1 (by decide)).1,
    ((C5_extract_answer_document_qa "Paris".data).1 (by decide)).2⟩

/-- C6: when neither the newline-prefixed "\nAssistant:" pattern nor the
newline-prefixed "\nAI:" pattern occurs in the input text, the chat extractor
returns the fixed fallback string rather than the raw text; and input
"\nAssistant: 42" yields "42". -/
theorem C6_chat_fallback_and_example :
    (∀ text : Str,
      (∀ i, i ≤ text.length → ¬ assistantMarker <+: text.drop i) →
      (∀ i, i ≤ text.length → ¬ aiMarker <+: text.drop i) →
      extract_answer_chat text = fallbackAnswer) ∧
    extract_answer_chat "\nAssistant: 42".data = "42".data := by
  constructor
  · intro text h1 h2
    have hn1 : findSplit assistantMarker text = none :=
      findSplit_eq_none _ text (by decide) h1
    have hn2 : findSplit aiMarker text = none :=
      findSplit_eq_none _ text (by decide) h2
    simp [extract_answer_chat, recursive_extract_of_none _ _ _ hn1,
      recursive_extract_of_none _ _ _ hn2]
  · decide

theorem C6_chat_fallback_and_example_witness :
    extract_answer_chat "hello".data = fallbackAnswer :=
  C6_chat_fallback_and_example.1 "hello".data (by decide) (by decide)

/-- Concrete input refuting C7: its first pass narrows to exactly the fallback
string, so the second pass reverts to the original text, where "\nAI:" does
match. -/
def ceC7 : Str := "\nAI: x\nAssistant: Sorry, I am not sure how to help with that.".data

/-- C7 counterexample: on `ceC7` the first pattern matches (at offset 6), the
second pattern does not match the text the first pass accepted (which happens
to equal the fallback string), yet the extractor does not return that text: it
returns the second pass's re-extraction from the original input. -/
theorem C7_counterexample :
    assistantMarker <+: ceC7.drop 6 ∧
    recursive_extract assistantMarker ceC7 fallbackAnswer = fallbackAnswer ∧
    (∀ i, i ≤ (recursive_extract assistantMarker ceC7 fallbackAnswer).length →
      ¬ aiMarker <+: (recursive_extract assistantMarker ceC7 fallbackAnswer).drop i) ∧
    extract_answer_chat ceC7 =
      "x\nAssistant: Sorry, I am not sure how to help with that.".data ∧
    extract_answer_chat ceC7 ≠ recursive_extract assistantMarker ceC7 fallbackAnswer := by
  refine ⟨by decide, by decide, by decide, by decide, by decide⟩

/-- C7 (amended): when the first pattern matches, the text it accepts is not
the fallback string itself, and the second pattern does not match that text,
the chat extractor returns the text accepted by the first pattern rather than
the fallback.  (The restriction is forced by `C7_counterexample`: a first-pass
result equal to the fallback string sends the second pass back to the original
text.) -/
theorem C7_first_pattern_reversion (text t1 : Str)
    (hmatch : ∃ pre post, text = pre ++ assistantMarker ++ post)
    (hout : recursive_extract assistantMarker text fallbackAnswer = t1)
    (hne : t1 ≠ fallbackAnswer)
    (hnoai : ∀ i, i ≤ t1.length → ¬ aiMarker <+: t1.drop i) :
    extract_answer_chat text = t1 := by
  have hn2 : findSplit aiMarker t1 = none := findSplit_eq_none _ t1 (by decide) hnoai
  simp only [extract_answer_chat, hout, if_neg hne]
  exact recursive_extract_of_none _ _ _ hn2

theorem C7_first_pattern_reversion_witness :
    extract_answer_chat "\nAssistant: hello".data = "hello".data :=
  C7_first_pattern_reversion "\nAssistant: hello".data "hello".data
    ⟨[], " hello".data, by decide⟩ (by decide) (by decide) (by decide)

/-! ### Document loader (src/fastapi/src/rag/file_loader.py) -/

/-- The declared file type of a `Loader` (`assert file_type in ["pdf", "html"]`). -/
inductive FileType where
  | pdf
  | html
  deriving DecidableEq

/-- The name of the file type, as interpolated into the assertion message. -/
def fileTypeName : FileType → Str
  | .pdf => "pdf".data
  | .html => "html".data

/-- The filename extension globbed for the file type. -/
def fileTypeExt : FileType → Str
  | .pdf => ".pdf".data
  | .html => ".html".data

/-- Tests whether the second list ends with the first. -/
def endsWithSeq (pat s : Str) : Bool := startsWithSeq pat.reverse s.reverse

/-- Embeds the glob pattern `{dir_path}/*.pdf` (or `*.html`) of `Loader.load_dir`
applied to a name in the directory listing: `*` matches any leading part except
that glob excludes names starting with a dot, so a name matches when it does
not start with '.' and ends with the declared extension. -/
def globMatch (ft : FileType) (fname : Str) : Bool :=
  !(startsWithSeq ".".data fname) && endsWithSeq (fileTypeExt ft) fname

/-- Embeds `Loader.load_dir` of src/fastapi/src/rag/file_loader.py on a
directory listing: glob for files of the declared type; when none match, the
`assert len(files) > 0` fails with an AssertionError carrying the message
"No {file_type} files found in {dir_path}" — a fatal configuration error
surfaced to the caller.  Otherwise the matched files go to `self.load` whose
parsing and splitting are delegated to external libraries, represented here by
returning the matched file list. -/
def load_dir (ft : FileType) (dirPath : Str) (listing : List Str) :
    Except Str (List Str) :=
  let files := listing.filter (globMatch ft)
  if files.length > 0 then .ok files
  else .error ("No ".data ++ fileTypeName ft ++ " files found in ".data ++ dirPath)

/-- C8: for every directory containing zero files whose name matches the
declared file type, `load_dir` fails with the configuration error (the failed
assertion) instead of returning any documents. -/
theorem C8_no_matching_files_error (ft : FileType) (dirPath : Str)
    (listing : List Str)
    (h : ∀ f ∈ listing, globMatch ft f = false) :
    load_dir ft dirPath listing =
      .error ("No ".data ++ fileTypeName ft ++ " files found in ".data ++ dirPath) := by
  have hfilter : listing.filter (globMatch ft) = [] :=
    List.filter_eq_nil_iff.mpr (fun a ha => by simp [h a ha])
  simp [load_dir, hfilter]

theorem C8_no_matching_files_error_witness :
    load_dir .pdf "data_dir".data ["report.html".data, "notes.txt".data] =
      .error ("No ".data ++ fileTypeName .pdf ++ " files found in ".data ++
        "data_dir".data) :=
  C8_no_matching_files_error .pdf "data_dir".data
    ["report.html".data, "notes.txt".data] (by decide)

/-! ### Text splitter (src/fastapi/src/rag/file_loader.py, TextSplitter) -/

/-- Modelled from the spec: the splitter behind `TextSplitter` of
src/fastapi/src/rag/file_loader.py is `RecursiveCharacterTextSplitter` of the
external langchain_text_splitters library, whose code is not part of this
repository.  Following the spec's words — "break content into chunks ≤
chunk_size characters, with chunk_overlap characters repeated between
consecutive chunks of the same document" — the model emits windows of
`chunkSize` characters advancing by `chunkSize - chunkOverlap` characters, so
consecutive chunks repeat exactly `chunkOverlap` characters, and a remainder
of at most `chunkSize` characters forms the final chunk.  The degenerate case
`chunkOverlap ≥ chunkSize` (excluded by the claims) returns the whole content
as one chunk to keep the recursion well founded. -/
def splitChunks (chunkSize chunkOverlap : Nat) (content : Str) : List Str :=
  if h : content.length ≤ chunkSize ∨ chunkSize - chunkOverlap = 0 then [content]
  else
    content.take chunkSize ::
      splitChunks chunkSize chunkOverlap (content.drop (chunkSize - chunkOverlap))
termination_by content.length
decreasing_by
  push_neg at h
  simp only [List.length_drop]
  omega

theorem splitChunks_head (chunkSize chunkOverlap : Nat) (content : Str)
    (hlt : chunkOverlap < chunkSize) :
    (splitChunks chunkSize chunkOverlap content).head? =
      some (content.take chunkSize) := by
  rw [splitChunks]
  by_cases h : content.length ≤ chunkSize ∨ chunkSize - chunkOverlap = 0
  · rcases h with h | h
    · rw [dif_pos (Or.inl h)]
      simp [List.take_of_length_le h]
    · omega
  · rw [dif_neg h]
    rfl

theorem splitChunks_length_le : ∀ (n : Nat) (content : Str), content.length ≤ n →
    ∀ chunkSize chunkOverlap, chunkOverlap < chunkSize →
      ∀ c ∈ splitChunks chunkSize chunkOverlap content, c.length ≤ chunkSize := by
  intro n
  induction n with
  | zero =>
    intro content hle cs ov hlt c hc
    rw [splitChunks, dif_pos (Or.inl (by omega))] at hc
    rcases List.mem_singleton.mp hc with rfl
    omega
  | succ n ih =>
    intro content hle cs ov hlt c hc
    by_cases hcond : content.length ≤ cs ∨ cs - ov = 0
    · rw [splitChunks, dif_pos hcond] at hc
      rcases List.mem_singleton.mp hc with rfl
      rcases hcond with h | h
      · exact h
      · omega
    · rw [splitChunks, dif_neg hcond] at hc
      push_neg at hcond
      rcases List.mem_cons.mp hc with rfl | hc'
      · simp only [List.length_take]
        omega
      · refine ih (content.drop (cs - ov)) ?_ cs ov hlt c hc'
        simp only [List.length_drop]
        omega

theorem splitChunks_chain : ∀ (n : Nat) (content : Str), content.length ≤ n →
    ∀ chunkSize chunkOverlap, chunkOverlap < chunkSize →
      List.Chain' (fun a b =>
          a.drop (chunkSize - chunkOverlap) = b.take chunkOverlap ∧
          (b.take chunkOverlap).length = chunkOverlap)
        (splitChunks chunkSize chunkOverlap content) := by
  intro n
  induction n with
  | zero =>
    intro content hle cs ov hlt
    rw [splitChunks, dif_pos (Or.inl (by omega))]
    exact List.chain'_singleton content
  | succ n ih =>
    intro content hle cs ov hlt
    by_cases hcond : content.length ≤ cs ∨ cs - ov = 0
    · rw [splitChunks, dif_pos hcond]
      exact List.chain'_singleton content
    · rw [splitChunks, dif_neg hcond]
      push_neg at hcond
      rw [List.chain'_cons']
      constructor
      · intro b hb
        rw [splitChunks_head cs ov _ hlt, Option.mem_def, Option.some.injEq] at hb
        subst hb
        have hrlen : ov ≤ (content.drop (cs - ov)).length := by
          simp only [List.length_drop]
          omega
        constructor
        · rw [List.drop_take cs (cs - ov) content, List.take_take]
          congr 1
          omega
        · rw [List.take_take, List.length_take, List.length_drop]
          omega
      · refine ih (content.drop (cs - ov)) ?_ cs ov hlt
        simp only [List.length_drop]
        omega

/-- C9: splitting a document's content with overlap strictly below the chunk
size produces chunks of at most `chunkSize` characters each, and every two
consecutive chunks share exactly `chunkOverlap` characters of content: the
trailing `chunkOverlap` characters of the former are exactly the leading
`chunkOverlap` characters of the latter. -/
theorem C9_split_chunk_bounds (chunkSize chunkOverlap : Nat) (content : Str)
    (hlt : chunkOverlap < chunkSize) :
    (∀ c ∈ splitChunks chunkSize chunkOverlap content, c.length ≤ chunkSize) ∧
    List.Chain' (fun a b =>
        a.drop (chunkSize - chunkOverlap) = b.take chunkOverlap ∧
        (b.take chunkOverlap).length = chunkOverlap)
      (splitChunks chunkSize chunkOverlap content) :=
  ⟨splitChunks_length_le content.length content le_rfl chunkSize chunkOverlap hlt,
   splitChunks_chain content.length content le_rfl chunkSize chunkOverlap hlt⟩

theorem C9_split_chunk_bounds_witness :
    (∀ c ∈ splitChunks 5 2 "hello world".data, c.length ≤ 5) ∧
    List.Chain' (fun a b =>
        a.drop (5 - 2) = b.take 2 ∧ (b.take 2).length = 2)
      (splitChunks 5 2 "hello world".data) :=
  C9_split_chunk_bounds 5 2 "hello world".data (by decide)
